import Mathlib

/-!
Verification of the option-pricing core of the Option-Price-Visualiser
repository: a shallow embedding over `ℝ` of `models/BlackScholes.py`,
`models/BinomialTree.py` and `models/ImpliedVolatility.py`, together with
theorems settling the specification claims about them.

Conventions of the embedding:
* numpy/scipy real functions (`np.exp`, `np.log`, `np.sqrt`, `norm.cdf`,
  `norm.pdf`) are modelled by their exact real counterparts;
* Python code that can raise is modelled with `Option` (`none` = the
  exception path), everything else is a total function;
* Python classes become structures holding the constructor parameters, and
  derived quantities stored by `__init__` become functions of the structure
  (the objects are immutable, so this is observationally identical).
-/

open MeasureTheory

namespace OPV

/-- Standard normal density, the model of `scipy.stats.norm.pdf`. -/
noncomputable def normPdf (x : ℝ) : ℝ :=
  Real.exp (-(1 / 2) * x ^ 2) / Real.sqrt (2 * Real.pi)

/-- Standard normal cumulative distribution function, the model of
`scipy.stats.norm.cdf`. -/
noncomputable def normCdf (x : ℝ) : ℝ :=
  (∫ t in Set.Iic x, Real.exp (-(1 / 2) * t ^ 2)) / Real.sqrt (2 * Real.pi)

lemma gauss_integrable :
    Integrable (fun t : ℝ => Real.exp (-(1 / 2) * t ^ 2)) :=
  integrable_exp_neg_mul_sq (by norm_num)

lemma gauss_total :
    (∫ t : ℝ, Real.exp (-(1 / 2) * t ^ 2)) = Real.sqrt (2 * Real.pi) := by
  rw [integral_gaussian]
  congr 1
  ring

lemma sqrt_two_pi_pos : 0 < Real.sqrt (2 * Real.pi) :=
  Real.sqrt_pos.mpr (by positivity)

lemma gauss_reflect (x : ℝ) :
    (∫ t in Set.Iic (-x), Real.exp (-(1 / 2) * t ^ 2)) =
      ∫ t in Set.Ioi x, Real.exp (-(1 / 2) * t ^ 2) := by
  have h := integral_comp_neg_Iic (-x) (fun t : ℝ => Real.exp (-(1 / 2) * t ^ 2))
  simpa [neg_sq] using h

lemma normCdf_add_neg (x : ℝ) : normCdf x + normCdf (-x) = 1 := by
  unfold normCdf
  rw [div_add_div_same, gauss_reflect,
    intervalIntegral.integral_Iic_add_Ioi gauss_integrable.integrableOn
      gauss_integrable.integrableOn,
    gauss_total, div_self (ne_of_gt sqrt_two_pi_pos)]

lemma normCdf_neg (x : ℝ) : normCdf (-x) = 1 - normCdf x := by
  have h := normCdf_add_neg x
  linarith

lemma normCdf_nonneg (x : ℝ) : 0 ≤ normCdf x :=
  div_nonneg
    (setIntegral_nonneg measurableSet_Iic fun t _ => (Real.exp_pos _).le)
    (Real.sqrt_nonneg _)

lemma normCdf_le_one (x : ℝ) : normCdf x ≤ 1 := by
  unfold normCdf
  rw [div_le_one sqrt_two_pi_pos]
  calc (∫ t in Set.Iic x, Real.exp (-(1 / 2) * t ^ 2))
      ≤ ∫ t : ℝ, Real.exp (-(1 / 2) * t ^ 2) :=
        setIntegral_le_integral gauss_integrable
          (Filter.Eventually.of_forall fun t => (Real.exp_pos _).le)
    _ = Real.sqrt (2 * Real.pi) := gauss_total

/-- Parameter record stored by `BlackScholes.__init__`. -/
structure BlackScholes where
  S : ℝ
  K : ℝ
  T : ℝ
  r : ℝ
  sigma : ℝ
  q : ℝ

namespace BlackScholes

/-- The `d1` computed in `__init__`:
`(np.log(S/K) + (r - q + 0.5 * sigma**2) * T) / (sigma * np.sqrt(T))`. -/
noncomputable def d1 (m : BlackScholes) : ℝ :=
  (Real.log (m.S / m.K) + (m.r - m.q + 0.5 * m.sigma ^ 2) * m.T) /
    (m.sigma * Real.sqrt m.T)

/-- The `d2` computed in `__init__`: `d1 - sigma * np.sqrt(T)`. -/
noncomputable def d2 (m : BlackScholes) : ℝ :=
  d1 m - m.sigma * Real.sqrt m.T

/-- `BlackScholes.call_price`. -/
noncomputable def call_price (m : BlackScholes) : ℝ :=
  m.S * Real.exp (-m.q * m.T) * normCdf (d1 m) -
    m.K * Real.exp (-m.r * m.T) * normCdf (d2 m)

/-- `BlackScholes.put_price`. -/
noncomputable def put_price (m : BlackScholes) : ℝ :=
  m.K * Real.exp (-m.r * m.T) * normCdf (-(d2 m)) -
    m.S * Real.exp (-m.q * m.T) * normCdf (-(d1 m))

/-- `BlackScholes.vega` (per 1% of volatility, i.e. divided by 100). -/
noncomputable def vega (m : BlackScholes) : ℝ :=
  m.S * Real.exp (-m.q * m.T) * normPdf (d1 m) * Real.sqrt m.T / 100

/-- The constructor `BlackScholes.__init__(S, K, T, r, sigma, q)`.
It contains no validation and no conditional; the only Python operation in
it that can raise is the plain division `S/K` inside `np.log(S/K)`, which
raises `ZeroDivisionError` exactly when `K == 0` (for `K < 0`, `np.log`
returns `nan` without raising, and the module suppresses warnings).
The exception path is modelled by `none`. -/
noncomputable def init (S K T r sigma q : ℝ) : Option BlackScholes :=
  if K = 0 then none else some ⟨S, K, T, r, sigma, q⟩

end BlackScholes

/-- The `d1` of the specification, written with `σ²/2` as in the spec text:
`d1 = [ln(S/K) + (r - q + σ²/2)·T] / (σ√T)`. -/
noncomputable def specD1 (m : BlackScholes) : ℝ :=
  (Real.log (m.S / m.K) + (m.r - m.q + m.sigma ^ 2 / 2) * m.T) /
    (m.sigma * Real.sqrt m.T)

/-- The `d2` of the specification: `d2 = d1 − σ√T`. -/
noncomputable def specD2 (m : BlackScholes) : ℝ :=
  specD1 m - m.sigma * Real.sqrt m.T

/-- The call formula of the specification:
`Call = S·e^(−qT)·Φ(d1) − K·e^(−rT)·Φ(d2)`. -/
noncomputable def specCall (m : BlackScholes) : ℝ :=
  m.S * Real.exp (-m.q * m.T) * normCdf (specD1 m) -
    m.K * Real.exp (-m.r * m.T) * normCdf (specD2 m)

/-- The put formula of the specification:
`Put = K·e^(−rT)·Φ(−d2) − S·e^(−qT)·Φ(−d1)`. -/
noncomputable def specPut (m : BlackScholes) : ℝ :=
  m.K * Real.exp (-m.r * m.T) * normCdf (-(specD2 m)) -
    m.S * Real.exp (-m.q * m.T) * normCdf (-(specD1 m))

lemma d1_eq_specD1 (m : BlackScholes) : BlackScholes.d1 m = specD1 m := by
  unfold BlackScholes.d1 specD1
  norm_num
  ring

lemma d2_eq_specD2 (m : BlackScholes) : BlackScholes.d2 m = specD2 m := by
  unfold BlackScholes.d2 specD2
  rw [d1_eq_specD1]

/-- C1: for every contract with `S>0`, `K>0`, `T>0`, `sigma>0`,
`call_price` returns `S·e^(−qT)·Φ(d1) − K·e^(−rT)·Φ(d2)` and `put_price`
returns `K·e^(−rT)·Φ(−d2) − S·e^(−qT)·Φ(−d1)`, with
`d1 = [ln(S/K) + (r − q + σ²/2)·T]/(σ√T)`, `d2 = d1 − σ√T`, and `Φ` the
standard normal CDF. -/
theorem C1_black_scholes_formulas (m : BlackScholes)
    (hS : 0 < m.S) (hK : 0 < m.K) (hT : 0 < m.T) (hsig : 0 < m.sigma) :
    BlackScholes.call_price m = specCall m ∧
      BlackScholes.put_price m = specPut m := by
  constructor
  · unfold BlackScholes.call_price specCall
    rw [d1_eq_specD1, d2_eq_specD2]
  · unfold BlackScholes.put_price specPut
    rw [d1_eq_specD1, d2_eq_specD2]

/-- Concrete contract used to witness C1. -/
noncomputable def mC1 : BlackScholes := ⟨100, 100, 1, 1 / 20, 1 / 5, 0⟩

/-- Witness for C1 at `S=100, K=100, T=1, r=0.05, σ=0.2, q=0`. -/
theorem C1_witness :
    0 < mC1.S ∧ 0 < mC1.K ∧ 0 < mC1.T ∧ 0 < mC1.sigma ∧
      (BlackScholes.call_price mC1 = specCall mC1 ∧
        BlackScholes.put_price mC1 = specPut mC1) :=
  ⟨by norm_num [mC1], by norm_num [mC1], by norm_num [mC1], by norm_num [mC1],
    C1_black_scholes_formulas mC1 (by norm_num [mC1]) (by norm_num [mC1])
      (by norm_num [mC1]) (by norm_num [mC1])⟩

/-- C2: for every contract with `S>0`, `K>0`, `T>0`, `sigma>0`, put-call
parity `call_price − put_price = S·e^(−qT) − K·e^(−rT)` holds exactly in
the real-valued embedding. -/
theorem C2_put_call_parity (m : BlackScholes)
    (hS : 0 < m.S) (hK : 0 < m.K) (hT : 0 < m.T) (hsig : 0 < m.sigma) :
    BlackScholes.call_price m - BlackScholes.put_price m =
      m.S * Real.exp (-m.q * m.T) - m.K * Real.exp (-m.r * m.T) := by
  unfold BlackScholes.call_price BlackScholes.put_price
  rw [normCdf_neg (BlackScholes.d2 m), normCdf_neg (BlackScholes.d1 m)]
  ring

/-- Concrete contract used to witness C2. -/
noncomputable def mC2 : BlackScholes := ⟨120, 90, 2, 1 / 50, 3 / 10, 1 / 100⟩

/-- Witness for C2 at `S=120, K=90, T=2, r=0.02, σ=0.3, q=0.01`. -/
theorem C2_witness :
    0 < mC2.S ∧ 0 < mC2.K ∧ 0 < mC2.T ∧ 0 < mC2.sigma ∧
      BlackScholes.call_price mC2 - BlackScholes.put_price mC2 =
        mC2.S * Real.exp (-mC2.q * mC2.T) - mC2.K * Real.exp (-mC2.r * mC2.T) :=
  ⟨by norm_num [mC2], by norm_num [mC2], by norm_num [mC2], by norm_num [mC2],
    C2_put_call_parity mC2 (by norm_num [mC2]) (by norm_num [mC2])
      (by norm_num [mC2]) (by norm_num [mC2])⟩

/-- C5: the spec requires inputs with `S≤0`, `K≤0`, `T≤0` or `σ≤0` to be
rejected before construction with an `InvalidParameter` error.  The code
performs no validation at all: `BlackScholes.__init__` accepts `S = -1`
(and any non-positive `T` or `σ`) and constructs the object, silently
producing `nan`-valued `d1`/`d2` instead of signalling an error.  This
theorem evaluates the embedded constructor at the failing input
`S=-1, K=100, T=1, r=0.05, σ=0.2, q=0`: construction succeeds. -/
theorem C5_no_invalid_parameter_rejection :
    BlackScholes.init (-1) 100 1 (1 / 20) (1 / 5) 0 =
      some ⟨-1, 100, 1, 1 / 20, 1 / 5, 0⟩ := by
  unfold BlackScholes.init
  norm_num

/-- The `option_type` tag of `BinomialTree` (`'call'` / `'put'`). -/
inductive OptionType where
  | call : OptionType
  | put : OptionType
deriving DecidableEq

/-- The `exercise_type` tag of `BinomialTree` (`'european'` / `'american'`).
The Python code tests `exercise_type == 'american'` and treats every other
value as European. -/
inductive ExerciseType where
  | european : ExerciseType
  | american : ExerciseType
deriving DecidableEq

/-- Parameter record stored by `BinomialTree.__init__`. -/
structure BinomialTree where
  S : ℝ
  K : ℝ
  T : ℝ
  r : ℝ
  sigma : ℝ
  n : ℕ
  q : ℝ
  option_type : OptionType
  exercise_type : ExerciseType

namespace BinomialTree

/-- `self.dt = T / n` (as a real number; the `n = 0` exception is handled
in `init` below). -/
noncomputable def dt (m : BinomialTree) : ℝ := m.T / (m.n : ℝ)

/-- `self.u = np.exp(sigma * np.sqrt(self.dt))`. -/
noncomputable def u (m : BinomialTree) : ℝ :=
  Real.exp (m.sigma * Real.sqrt (dt m))

/-- `self.d = 1 / self.u`. -/
noncomputable def d (m : BinomialTree) : ℝ := 1 / u m

/-- `self.p = (np.exp((r - q) * self.dt) - self.d) / (self.u - self.d)`. -/
noncomputable def p (m : BinomialTree) : ℝ :=
  (Real.exp ((m.r - m.q) * dt m) - d m) / (u m - d m)

/-- `self.discount = np.exp(-r * self.dt)`. -/
noncomputable def discount (m : BinomialTree) : ℝ :=
  Real.exp (-m.r * dt m)

/-- The constructor `BinomialTree.__init__`.  It performs no validation of
`p`; its only fallible operation is `self.dt = T / n`, which raises
`ZeroDivisionError` exactly when `n = 0`.  The exception path is modelled
by `none`. -/
noncomputable def init (S K T r sigma : ℝ) (n : ℕ) (q : ℝ)
    (ot : OptionType) (et : ExerciseType) : Option BinomialTree :=
  if n = 0 then none else some ⟨S, K, T, r, sigma, n, q, ot, et⟩

/-- The payoff branch used both at maturity and for early exercise:
`max(0, s - K)` if `option_type == 'call'` else `max(0, K - s)`. -/
noncomputable def payoff (ot : OptionType) (K s : ℝ) : ℝ :=
  if ot = OptionType.call then max 0 (s - K) else max 0 (K - s)

/-- Option value at terminal node `i`: the payoff at
`S_T[i] = S * u**(n-i) * d**i`. -/
noncomputable def terminalValue (m : BinomialTree) (i : ℕ) : ℝ :=
  payoff m.option_type m.K (m.S * u m ^ (m.n - i) * d m ^ i)

/-- One node update of the backward induction at step `j`, node `i`:
`V[i] = discount * (p * V[i] + (1-p) * V[i+1])`, then for American
exercise `V[i] = max(V[i], payoff at S * u**(j-i) * d**i)`.  The source
updates the working array in place with `i` ascending, so `V[i+1]` is
still the value from step `j+1`; passing the whole step-`j+1` array `V`
is therefore faithful. -/
noncomputable def stepLevel (m : BinomialTree) (j : ℕ) (V : ℕ → ℝ)
    (i : ℕ) : ℝ :=
  let cont := discount m * (p m * V i + (1 - p m) * V (i + 1))
  if m.exercise_type = ExerciseType.american then
    max cont (payoff m.option_type m.K (m.S * u m ^ (j - i) * d m ^ i))
  else cont

/-- The working array after `k` backward steps (so at tree level `n - k`);
`sweep m 0` is the terminal-payoff array. -/
noncomputable def sweep (m : BinomialTree) : ℕ → ℕ → ℝ
  | 0, i => terminalValue m i
  | k + 1, i => stepLevel m (m.n - (k + 1)) (sweep m k) i

/-- `BinomialTree.price`: run the full backward induction (the loop
`for j in range(n-1, -1, -1)`) and return `V[0]`. -/
noncomputable def price (m : BinomialTree) : ℝ := sweep m m.n 0

lemma sweep_zero (m : BinomialTree) (i : ℕ) :
    sweep m 0 i = terminalValue m i := rfl

lemma sweep_succ (m : BinomialTree) (k i : ℕ) :
    sweep m (k + 1) i = stepLevel m (m.n - (k + 1)) (sweep m k) i := rfl

lemma stepLevel_eu (m : BinomialTree)
    (hm : m.exercise_type = ExerciseType.european) (j : ℕ) (V : ℕ → ℝ)
    (i : ℕ) :
    stepLevel m j V i =
      discount m * (p m * V i + (1 - p m) * V (i + 1)) := by
  unfold stepLevel
  rw [hm]
  simp

lemma stepLevel_am (m : BinomialTree)
    (hm : m.exercise_type = ExerciseType.american) (j : ℕ) (V : ℕ → ℝ)
    (i : ℕ) :
    stepLevel m j V i =
      max (discount m * (p m * V i + (1 - p m) * V (i + 1)))
        (payoff m.option_type m.K (m.S * u m ^ (j - i) * d m ^ i)) := by
  unfold stepLevel
  rw [hm]
  simp

end BinomialTree

/-- The same contract with the exercise style replaced: used to compare
American and European valuation of otherwise identical models. -/
noncomputable def withEx (m : BinomialTree) (et : ExerciseType) :
    BinomialTree :=
  ⟨m.S, m.K, m.T, m.r, m.sigma, m.n, m.q, m.option_type, et⟩

lemma sweep_eu_le_am (m : BinomialTree)
    (hp0 : 0 ≤ BinomialTree.p m) (hp1 : BinomialTree.p m ≤ 1) :
    ∀ k i,
      BinomialTree.sweep (withEx m ExerciseType.european) k i ≤
        BinomialTree.sweep (withEx m ExerciseType.american) k i := by
  have hdisc : 0 ≤ BinomialTree.discount m := (Real.exp_pos _).le
  have h1p : 0 ≤ 1 - BinomialTree.p m := by linarith
  intro k
  induction k with
  | zero =>
    intro i
    exact le_of_eq rfl
  | succ k ih =>
    intro i
    have h1 :
        BinomialTree.sweep (withEx m ExerciseType.european) (k + 1) i =
          BinomialTree.discount m *
            (BinomialTree.p m *
                BinomialTree.sweep (withEx m ExerciseType.european) k i +
              (1 - BinomialTree.p m) *
                BinomialTree.sweep (withEx m ExerciseType.european) k
                  (i + 1)) :=
      BinomialTree.stepLevel_eu (withEx m ExerciseType.european) rfl _ _ i
    have h2 :
        BinomialTree.sweep (withEx m ExerciseType.american) (k + 1) i =
          max
            (BinomialTree.discount m *
              (BinomialTree.p m *
                  BinomialTree.sweep (withEx m ExerciseType.american) k i +
                (1 - BinomialTree.p m) *
                  BinomialTree.sweep (withEx m ExerciseType.american) k
                    (i + 1)))
            (BinomialTree.payoff m.option_type m.K
              (m.S * BinomialTree.u m ^ (m.n - (k + 1) - i) *
                BinomialTree.d m ^ i)) :=
      BinomialTree.stepLevel_am (withEx m ExerciseType.american) rfl _ _ i
    rw [h1, h2]
    refine le_trans ?_ (le_max_left _ _)
    refine mul_le_mul_of_nonneg_left ?_ hdisc
    exact add_le_add (mul_le_mul_of_nonneg_left (ih i) hp0)
      (mul_le_mul_of_nonneg_left (ih (i + 1)) h1p)

/-- C3 (amended): for two `BinomialTree` models identical in `S, K, T, r,
sigma, n, q` and `option_type`, differing only in `exercise_type`, and
whose risk-neutral probability `p` lies in `[0, 1]`, the American `price()`
is at least the European `price()`.  (The `p ∈ [0,1]` hypothesis is
necessary: the code never validates `p`, and the counterexample theorem
below shows the inequality fails when `p > 1`.) -/
theorem C3_american_ge_european (m : BinomialTree)
    (hp0 : 0 ≤ BinomialTree.p m) (hp1 : BinomialTree.p m ≤ 1) :
    BinomialTree.price (withEx m ExerciseType.european) ≤
      BinomialTree.price (withEx m ExerciseType.american) :=
  sweep_eu_le_am m hp0 hp1 m.n 0

/-- Concrete contract used to witness the amended C3:
`S=100, K=100, T=1, r=0, σ=0.2, n=1, q=0`, a call. -/
noncomputable def mC3 : BinomialTree :=
  ⟨100, 100, 1, 0, 1 / 5, 1, 0, OptionType.call, ExerciseType.european⟩

/-- Witness for the amended C3: the concrete contract `mC3` has
`p ∈ [0, 1]` and its American price dominates its European price. -/
theorem C3_witness :
    (0 ≤ BinomialTree.p mC3 ∧ BinomialTree.p mC3 ≤ 1) ∧
      BinomialTree.price (withEx mC3 ExerciseType.european) ≤
        BinomialTree.price (withEx mC3 ExerciseType.american) := by
  have hdt : BinomialTree.dt mC3 = 1 := by
    simp [BinomialTree.dt, mC3]
  have hu : BinomialTree.u mC3 = Real.exp (1 / 5) := by
    rw [BinomialTree.u, hdt]
    simp [mC3]
  have hd : BinomialTree.d mC3 = Real.exp (-(1 / 5)) := by
    rw [BinomialTree.d, hu, one_div, ← Real.exp_neg]
  have hp : BinomialTree.p mC3 =
      (1 - Real.exp (-(1 / 5))) / (Real.exp (1 / 5) - Real.exp (-(1 / 5))) := by
    rw [BinomialTree.p, hdt, hu, hd]
    norm_num [mC3]
  have hlt : Real.exp (-(1 / 5)) < Real.exp (1 / 5) :=
    Real.exp_lt_exp.mpr (by norm_num)
  have hone : 1 ≤ Real.exp (1 / 5) := Real.one_le_exp (by norm_num)
  have hd1 : Real.exp (-(1 / 5)) < 1 := Real.exp_lt_one_iff.mpr (by norm_num)
  have hp0 : 0 ≤ BinomialTree.p mC3 := by
    rw [hp]
    exact div_nonneg (by linarith) (by linarith)
  have hp1 : BinomialTree.p mC3 ≤ 1 := by
    rw [hp]
    rw [div_le_one (by linarith)]
    linarith
  exact ⟨⟨hp0, hp1⟩, C3_american_ge_european mC3 hp0 hp1⟩

lemma payoff_put (K s : ℝ) :
    BinomialTree.payoff OptionType.put K s = max 0 (K - s) := by
  simp [BinomialTree.payoff]

/-- American put with `p > 1`: `S=100, K=100, T=1, r=1, σ=0.1, n=2, q=0`. -/
noncomputable def amPut : BinomialTree :=
  ⟨100, 100, 1, 1, 1 / 10, 2, 0, OptionType.put, ExerciseType.american⟩

/-- The same contract as `amPut` with European exercise. -/
noncomputable def euPut : BinomialTree :=
  ⟨100, 100, 1, 1, 1 / 10, 2, 0, OptionType.put, ExerciseType.european⟩

set_option maxHeartbeats 2000000 in
/-- C3 counterexample: for the identical contracts `amPut`/`euPut`
(`S=100, K=100, T=1, r=1, σ=0.1, n=2, q=0`, puts), whose risk-neutral
probability exceeds `1` (the code never validates it), the American
`price()` is strictly below the European `price()`: the unvalidated
negative weight `1 − p` makes the European backward induction produce a
positive root value from a negative intermediate value, while early
exercise caps the American value at `0`. -/
theorem C3_counterexample :
    BinomialTree.price amPut < BinomialTree.price euPut := by
  have hsq0 : 0 < Real.sqrt (1 / 2) := Real.sqrt_pos.mpr (by norm_num)
  have hsq1 : Real.sqrt (1 / 2) < 1 := (Real.sqrt_lt' one_pos).mpr (by norm_num)
  have hs0 : 0 < 1 / 10 * Real.sqrt (1 / 2) := by positivity
  have hs12 : 1 / 10 * Real.sqrt (1 / 2) < 1 / 2 := by nlinarith
  have hdt : BinomialTree.dt amPut = 1 / 2 := by
    norm_num [BinomialTree.dt, amPut]
  have hu : BinomialTree.u amPut = Real.exp (1 / 10 * Real.sqrt (1 / 2)) := by
    rw [BinomialTree.u, hdt]
    norm_num [amPut]
  have hd : BinomialTree.d amPut =
      Real.exp (-(1 / 10 * Real.sqrt (1 / 2))) := by
    rw [BinomialTree.d, hu, one_div, ← Real.exp_neg]
  have hdisc : BinomialTree.discount amPut = Real.exp (-(1 / 2)) := by
    rw [BinomialTree.discount, hdt]
    norm_num [amPut]
  have hp : BinomialTree.p amPut =
      (Real.exp (1 / 2) - Real.exp (-(1 / 10 * Real.sqrt (1 / 2)))) /
        (Real.exp (1 / 10 * Real.sqrt (1 / 2)) -
          Real.exp (-(1 / 10 * Real.sqrt (1 / 2)))) := by
    rw [BinomialTree.p, hdt, hu, hd]
    norm_num [amPut]
  have hU1 : 1 < Real.exp (1 / 10 * Real.sqrt (1 / 2)) :=
    Real.one_lt_exp_iff.mpr hs0
  have hD1 : Real.exp (-(1 / 10 * Real.sqrt (1 / 2))) < 1 :=
    Real.exp_lt_one_iff.mpr (by linarith)
  have hD0 : 0 < Real.exp (-(1 / 10 * Real.sqrt (1 / 2))) := Real.exp_pos _
  have hDU : Real.exp (-(1 / 10 * Real.sqrt (1 / 2))) <
      Real.exp (1 / 10 * Real.sqrt (1 / 2)) :=
    Real.exp_lt_exp.mpr (by linarith)
  have hUA : Real.exp (1 / 10 * Real.sqrt (1 / 2)) < Real.exp (1 / 2) :=
    Real.exp_lt_exp.mpr hs12
  have hdisc0 : 0 < Real.exp (-(1 / 2) : ℝ) := Real.exp_pos _
  have hUD : Real.exp (1 / 10 * Real.sqrt (1 / 2)) *
      Real.exp (-(1 / 10 * Real.sqrt (1 / 2))) = 1 := by
    rw [← Real.exp_add]
    norm_num
  have hp1 : 1 < BinomialTree.p amPut := by
    rw [hp, one_lt_div (by linarith)]
    linarith
  have h1p : 1 - BinomialTree.p amPut < 0 := by linarith
  -- terminal payoffs (levels are identical for `amPut` and `euPut`)
  have ht0 : BinomialTree.terminalValue amPut 0 = 0 := by
    have e : BinomialTree.terminalValue amPut 0 =
        BinomialTree.payoff OptionType.put 100
          (100 * BinomialTree.u amPut ^ 2 * BinomialTree.d amPut ^ 0) := rfl
    rw [e, payoff_put, pow_zero, mul_one, hu]
    rw [max_eq_left (by nlinarith [hU1])]
  have ht1 : BinomialTree.terminalValue amPut 1 = 0 := by
    have e : BinomialTree.terminalValue amPut 1 =
        BinomialTree.payoff OptionType.put 100
          (100 * BinomialTree.u amPut ^ 1 * BinomialTree.d amPut ^ 1) := rfl
    rw [e, payoff_put, pow_one, pow_one, hu, hd, mul_assoc, hUD, mul_one]
    norm_num
  have ht2 : BinomialTree.terminalValue amPut 2 =
      100 - 100 * Real.exp (-(1 / 10 * Real.sqrt (1 / 2))) ^ 2 := by
    have e : BinomialTree.terminalValue amPut 2 =
        BinomialTree.payoff OptionType.put 100
          (100 * BinomialTree.u amPut ^ 0 * BinomialTree.d amPut ^ 2) := rfl
    rw [e, payoff_put, pow_zero, mul_one, hd]
    rw [max_eq_right (by nlinarith [hD1, hD0])]
  have hW : 0 < 100 - 100 * Real.exp (-(1 / 10 * Real.sqrt (1 / 2))) ^ 2 := by
    nlinarith [hD1, hD0]
  -- European values one step back
  have hEu10 : BinomialTree.sweep euPut 1 0 = 0 := by
    have e : BinomialTree.sweep euPut 1 0 =
        BinomialTree.discount amPut *
          (BinomialTree.p amPut * BinomialTree.terminalValue amPut 0 +
            (1 - BinomialTree.p amPut) * BinomialTree.terminalValue amPut 1) :=
      rfl
    rw [e, ht0, ht1]
    ring
  have hEu11 : BinomialTree.sweep euPut 1 1 =
      Real.exp (-(1 / 2)) * ((1 - BinomialTree.p amPut) *
        (100 - 100 * Real.exp (-(1 / 10 * Real.sqrt (1 / 2))) ^ 2)) := by
    have e : BinomialTree.sweep euPut 1 1 =
        BinomialTree.discount amPut *
          (BinomialTree.p amPut * BinomialTree.terminalValue amPut 1 +
            (1 - BinomialTree.p amPut) * BinomialTree.terminalValue amPut 2) :=
      rfl
    rw [e, ht1, ht2, hdisc]
    ring
  have hEu11neg : BinomialTree.sweep euPut 1 1 < 0 := by
    rw [hEu11]
    exact mul_neg_of_pos_of_neg hdisc0 (mul_neg_of_neg_of_pos h1p hW)
  -- American values one step back
  have hAm10 : BinomialTree.sweep amPut 1 0 = 0 := by
    have e : BinomialTree.sweep amPut 1 0 =
        max
          (BinomialTree.discount amPut *
            (BinomialTree.p amPut * BinomialTree.terminalValue amPut 0 +
              (1 - BinomialTree.p amPut) * BinomialTree.terminalValue amPut 1))
          (BinomialTree.payoff OptionType.put 100
            (100 * BinomialTree.u amPut ^ 1 * BinomialTree.d amPut ^ 0)) := rfl
    rw [e, ht0, ht1, payoff_put, pow_zero, mul_one, pow_one, hu]
    rw [show BinomialTree.discount amPut *
        (BinomialTree.p amPut * 0 + (1 - BinomialTree.p amPut) * 0) = 0 from by
      ring]
    have hin : max (0:ℝ)
        (100 - 100 * Real.exp (1 / 10 * Real.sqrt (1 / 2))) = 0 :=
      max_eq_left (by nlinarith [hU1])
    rw [hin, max_self]
  have hE : 0 < 100 - 100 * Real.exp (-(1 / 10 * Real.sqrt (1 / 2))) := by
    linarith [hD1]
  have hAm11 : BinomialTree.sweep amPut 1 1 =
      100 - 100 * Real.exp (-(1 / 10 * Real.sqrt (1 / 2))) := by
    have e : BinomialTree.sweep amPut 1 1 =
        max
          (BinomialTree.discount amPut *
            (BinomialTree.p amPut * BinomialTree.terminalValue amPut 1 +
              (1 - BinomialTree.p amPut) * BinomialTree.terminalValue amPut 2))
          (BinomialTree.payoff OptionType.put 100
            (100 * BinomialTree.u amPut ^ 0 * BinomialTree.d amPut ^ 1)) := rfl
    rw [e, ht1, ht2, payoff_put, pow_zero, mul_one, pow_one, hd, hdisc]
    have hcont : Real.exp (-(1 / 2)) *
        (BinomialTree.p amPut * 0 + (1 - BinomialTree.p amPut) *
          (100 - 100 * Real.exp (-(1 / 10 * Real.sqrt (1 / 2))) ^ 2)) < 0 := by
      rw [show BinomialTree.p amPut * (0:ℝ) + (1 - BinomialTree.p amPut) *
          (100 - 100 * Real.exp (-(1 / 10 * Real.sqrt (1 / 2))) ^ 2) =
          (1 - BinomialTree.p amPut) *
            (100 - 100 * Real.exp (-(1 / 10 * Real.sqrt (1 / 2))) ^ 2) from by
        ring]
      exact mul_neg_of_pos_of_neg hdisc0 (mul_neg_of_neg_of_pos h1p hW)
    have hin2 : max (0:ℝ)
        (100 - 100 * Real.exp (-(1 / 10 * Real.sqrt (1 / 2)))) =
          100 - 100 * Real.exp (-(1 / 10 * Real.sqrt (1 / 2))) :=
      max_eq_right hE.le
    rw [hin2]
    exact max_eq_right (le_of_lt (lt_trans hcont hE))
  -- root values
  have hEuPrice : BinomialTree.price euPut =
      Real.exp (-(1 / 2)) *
        ((1 - BinomialTree.p amPut) * BinomialTree.sweep euPut 1 1) := by
    have e : BinomialTree.price euPut =
        BinomialTree.discount amPut *
          (BinomialTree.p amPut * BinomialTree.sweep euPut 1 0 +
            (1 - BinomialTree.p amPut) * BinomialTree.sweep euPut 1 1) := rfl
    rw [e, hEu10, hdisc]
    ring
  have hEuPos : 0 < BinomialTree.price euPut := by
    rw [hEuPrice]
    exact mul_pos hdisc0 (mul_pos_of_neg_of_neg h1p hEu11neg)
  have hAmPrice : BinomialTree.price amPut = 0 := by
    have e : BinomialTree.price amPut =
        max
          (BinomialTree.discount amPut *
            (BinomialTree.p amPut * BinomialTree.sweep amPut 1 0 +
              (1 - BinomialTree.p amPut) * BinomialTree.sweep amPut 1 1))
          (BinomialTree.payoff OptionType.put 100
            (100 * BinomialTree.u amPut ^ 0 * BinomialTree.d amPut ^ 0)) := rfl
    rw [e, hAm10, hAm11, payoff_put]
    simp only [pow_zero, mul_one]
    rw [hdisc]
    have hcont : Real.exp (-(1 / 2)) *
        (BinomialTree.p amPut * 0 + (1 - BinomialTree.p amPut) *
          (100 - 100 * Real.exp (-(1 / 10 * Real.sqrt (1 / 2))))) < 0 := by
      rw [show BinomialTree.p amPut * (0:ℝ) + (1 - BinomialTree.p amPut) *
          (100 - 100 * Real.exp (-(1 / 10 * Real.sqrt (1 / 2)))) =
          (1 - BinomialTree.p amPut) *
            (100 - 100 * Real.exp (-(1 / 10 * Real.sqrt (1 / 2)))) from by
        ring]
      exact mul_neg_of_pos_of_neg hdisc0 (mul_neg_of_neg_of_pos h1p hE)
    rw [show max (0:ℝ) (100 - 100) = 0 from by norm_num]
    exact max_eq_right hcont.le
  rw [hAmPrice]
  exact hEuPos

/-- Concrete lattice model used for C6, with `p > 1`:
`S=100, K=100, T=1, r=1, σ=0.05, n=1, q=0`. -/
noncomputable def mC6 : BinomialTree :=
  ⟨100, 100, 1, 1, 1 / 20, 1, 0, OptionType.call, ExerciseType.european⟩

/-- C6: the spec requires the lattice pricer to report an
`InconsistentModel` error whenever the derived risk-neutral probability
`p = (e^((r−q)Δt) − d)/(u − d)` falls outside `[0, 1]`.  The code computes
`p` in `__init__` without any check and never raises.  This theorem
exhibits the failing input `mC6`, whose `p` exceeds `1`, and shows the
embedded constructor nevertheless succeeds (so `price()` is silently
computed from an unarbitraged model). -/
theorem C6_no_inconsistent_model_check :
    1 < BinomialTree.p mC6 ∧
      BinomialTree.init 100 100 1 1 (1 / 20) 1 0 OptionType.call
          ExerciseType.european =
        some mC6 := by
  constructor
  · have hdt : BinomialTree.dt mC6 = 1 := by
      simp [BinomialTree.dt, mC6]
    have hu : BinomialTree.u mC6 = Real.exp (1 / 20) := by
      rw [BinomialTree.u, hdt]
      simp [mC6]
    have hd : BinomialTree.d mC6 = Real.exp (-(1 / 20)) := by
      rw [BinomialTree.d, hu, one_div, ← Real.exp_neg]
    have hp : BinomialTree.p mC6 =
        (Real.exp 1 - Real.exp (-(1 / 20))) /
          (Real.exp (1 / 20) - Real.exp (-(1 / 20))) := by
      rw [BinomialTree.p, hdt, hu, hd]
      norm_num [mC6]
    have hlt : Real.exp (-(1 / 20)) < Real.exp (1 / 20) :=
      Real.exp_lt_exp.mpr (by norm_num)
    have hlt2 : Real.exp (1 / 20) < Real.exp 1 :=
      Real.exp_lt_exp.mpr (by norm_num)
    rw [hp, one_lt_div (by linarith)]
    linarith
  · simp [BinomialTree.init, mC6]

/-- C7: the spec requires `n = 0` to degenerate to the terminal payoff
`max(0, S−K)` with no backward steps and no arithmetic error.  In the code
`__init__` computes `self.dt = T / n` before `price()` can ever run, and
for `n = 0` that division raises `ZeroDivisionError`, so no price is
returned at all.  This theorem evaluates the embedded constructor at the
failing input `S=100, K=100, T=1, r=0.05, σ=0.2, n=0`: construction
fails. -/
theorem C7_n_zero_raises :
    BinomialTree.init 100 100 1 (1 / 20) (1 / 5) 0 0 OptionType.call
        ExerciseType.european =
      none := by
  simp [BinomialTree.init]

/-- Parameter record stored by `ImpliedVolatility.__init__`. -/
structure ImpliedVolatility where
  S : ℝ
  K : ℝ
  T : ℝ
  r : ℝ
  market_price : ℝ
  option_type : OptionType
  q : ℝ

namespace ImpliedVolatility

/-- The `BlackScholes` object built inside the solver at volatility
`sigma`: `b.BlackScholes(self.S, self.K, self.T, self.r, sigma, self.q)`. -/
noncomputable def bsAt (iv : ImpliedVolatility) (sigma : ℝ) : BlackScholes :=
  ⟨iv.S, iv.K, iv.T, iv.r, sigma, iv.q⟩

/-- The theoretical price used by both solver methods:
`bs.call_price()` if `option_type == 'call'` else `bs.put_price()`. -/
noncomputable def priceAt (iv : ImpliedVolatility) (sigma : ℝ) : ℝ :=
  if iv.option_type = OptionType.call then
    BlackScholes.call_price (bsAt iv sigma)
  else BlackScholes.put_price (bsAt iv sigma)

/-- The root-finding objective of `calculate_iv`:
`theoretical_price - market_price`. -/
noncomputable def objective (iv : ImpliedVolatility) (sigma : ℝ) : ℝ :=
  priceAt iv sigma - iv.market_price

end ImpliedVolatility

/-- Model of `scipy.optimize.brentq f a b`: scipy raises
`ValueError("f(a) and f(b) must have different signs")` exactly when
`f(a) * f(b) > 0`; that exception path is modelled by `none`.  Otherwise
Brent iteration returns a root of `f` in `[a, b]`, modelled here as the
least such root. -/
noncomputable def brentq (f : ℝ → ℝ) (a b : ℝ) : Option ℝ :=
  if 0 < f a * f b then none
  else some (sInf {x ∈ Set.Icc a b | f x = 0})

namespace ImpliedVolatility

/-- `ImpliedVolatility.calculate_iv`: `brentq(objective, 0.001, 5.0)`
inside `try`, returning `None` on `ValueError` (so the `none` of the
`brentq` model is passed through unchanged). -/
noncomputable def calculate_iv (iv : ImpliedVolatility) : Option ℝ :=
  brentq (objective iv) 0.001 5.0

/-- `bs.vega() * 100` as computed in the Newton loop (back to the raw
per-unit sensitivity). -/
noncomputable def vegaRaw (iv : ImpliedVolatility) (sigma : ℝ) : ℝ :=
  BlackScholes.vega (bsAt iv sigma) * 100

/-- One pass of the `vega_newton` loop body as a map on `sigma`: return
`sigma` unchanged when the tolerance is met or vega is zero (the early
`return`/`break` paths), otherwise take the Newton step
`sigma - price_diff / vega` and reset to the floor `0.001` whenever the
step lands at or below `0`. -/
noncomputable def newtonUpdate (iv : ImpliedVolatility) (tol sigma : ℝ) : ℝ :=
  if |priceAt iv sigma - iv.market_price| < tol then sigma
  else if vegaRaw iv sigma = 0 then sigma
  else if sigma - (priceAt iv sigma - iv.market_price) / vegaRaw iv sigma ≤ 0
    then 0.001
  else sigma - (priceAt iv sigma - iv.market_price) / vegaRaw iv sigma

/-- The loop `for i in range(max_iterations)` of `vega_newton`, with its
early `return sigma` on tolerance, `break` on zero vega (followed by
`return sigma`), and the positive floor on the Newton step. -/
noncomputable def vegaNewtonLoop (iv : ImpliedVolatility) (tol : ℝ) :
    ℕ → ℝ → ℝ
  | 0, sigma => sigma
  | k + 1, sigma =>
      if |priceAt iv sigma - iv.market_price| < tol then sigma
      else if vegaRaw iv sigma = 0 then sigma
      else
        vegaNewtonLoop iv tol k
          (if sigma - (priceAt iv sigma - iv.market_price) / vegaRaw iv sigma ≤ 0
            then 0.001
          else sigma - (priceAt iv sigma - iv.market_price) / vegaRaw iv sigma)

/-- `ImpliedVolatility.vega_newton(sigma_initial, max_iterations,
tolerance)`: run the loop and return the final `sigma`. -/
noncomputable def vega_newton (iv : ImpliedVolatility) (sigma_initial : ℝ)
    (max_iterations : ℕ) (tolerance : ℝ) : ℝ :=
  vegaNewtonLoop iv tolerance max_iterations sigma_initial

lemma vegaNewtonLoop_succ (iv : ImpliedVolatility) (tol : ℝ) (k : ℕ)
    (sigma : ℝ) :
    vegaNewtonLoop iv tol (k + 1) sigma =
      if |priceAt iv sigma - iv.market_price| < tol then sigma
      else if vegaRaw iv sigma = 0 then sigma
      else
        vegaNewtonLoop iv tol k
          (if sigma - (priceAt iv sigma - iv.market_price) / vegaRaw iv sigma ≤ 0
            then 0.001
          else sigma - (priceAt iv sigma - iv.market_price) / vegaRaw iv sigma) :=
  rfl

lemma newtonUpdate_pos (iv : ImpliedVolatility) (tol sigma : ℝ)
    (hσ : 0 < sigma) : 0 < newtonUpdate iv tol sigma := by
  unfold newtonUpdate
  split_ifs with h1 h2 h3
  · exact hσ
  · exact hσ
  · norm_num
  · exact not_le.mp h3

end ImpliedVolatility

/-- C8: whenever the market price lies outside the range of prices
attainable over the bracket `σ ∈ [0.001, 5.0]` — operationally, the
objective has the same strict sign at both bracket ends, which is exactly
the condition under which a bracketed search cannot bracket a root —
`calculate_iv` reports `None` (an explicit no-result value), not a
spurious volatility and not an unhandled exception. -/
theorem C8_unbracketable_reports_none (iv : ImpliedVolatility)
    (h : 0 < ImpliedVolatility.objective iv 0.001 *
        ImpliedVolatility.objective iv 5.0) :
    ImpliedVolatility.calculate_iv iv = none := by
  unfold ImpliedVolatility.calculate_iv brentq
  rw [if_pos h]

/-- IV query with a market price (−101) far below intrinsic value:
`S=100, K=100, T=1, r=0, q=0`, call. -/
noncomputable def iv8 : ImpliedVolatility :=
  ⟨100, 100, 1, 0, -101, OptionType.call, 0⟩

lemma iv8_objective_pos (σ : ℝ) :
    0 < ImpliedVolatility.objective iv8 σ := by
  have h1 : 0 ≤ normCdf (BlackScholes.d1 (ImpliedVolatility.bsAt iv8 σ)) :=
    normCdf_nonneg _
  have h2 : normCdf (BlackScholes.d2 (ImpliedVolatility.bsAt iv8 σ)) ≤ 1 :=
    normCdf_le_one _
  have e : ImpliedVolatility.objective iv8 σ =
      100 * Real.exp (-(0 : ℝ) * 1) *
          normCdf (BlackScholes.d1 (ImpliedVolatility.bsAt iv8 σ)) -
        100 * Real.exp (-(0 : ℝ) * 1) *
          normCdf (BlackScholes.d2 (ImpliedVolatility.bsAt iv8 σ)) -
        (-101) := rfl
  rw [e, show (-(0 : ℝ) * 1) = 0 from by ring, Real.exp_zero]
  linarith

/-- Witness for C8: the query `iv8` has a market price below intrinsic
value, its objective is strictly positive at both bracket ends, and
`calculate_iv` returns `None`. -/
theorem C8_witness :
    0 < ImpliedVolatility.objective iv8 0.001 *
        ImpliedVolatility.objective iv8 5.0 ∧
      ImpliedVolatility.calculate_iv iv8 = none :=
  ⟨mul_pos (iv8_objective_pos 0.001) (iv8_objective_pos 5.0),
    C8_unbracketable_reports_none iv8
      (mul_pos (iv8_objective_pos 0.001) (iv8_objective_pos 5.0))⟩

/-- C9: starting from any `sigma_initial > 0`, every `sigma` iterate at
which a pass of the Newton loop evaluates the pricer is strictly
positive: whenever the Newton step would land at or below `0`, the value
is reset to the floor `0.001` before the next pricer evaluation, so the
pricer's domain `σ > 0` is never violated. -/
theorem C9_newton_sigma_stays_positive (iv : ImpliedVolatility)
    (tol sigma_initial : ℝ) (h0 : 0 < sigma_initial) :
    ∀ k : ℕ,
      0 < (ImpliedVolatility.newtonUpdate iv tol)^[k] sigma_initial := by
  intro k
  induction k with
  | zero => simpa using h0
  | succ k ih =>
    rw [Function.iterate_succ_apply']
    exact ImpliedVolatility.newtonUpdate_pos iv tol _ ih

/-- IV query used to witness C9: `S=100, K=100, T=1, r=0.05,
market price 10`, call. -/
noncomputable def iv9 : ImpliedVolatility :=
  ⟨100, 100, 1, 1 / 20, 10, OptionType.call, 0⟩

/-- Witness for C9 at `sigma_initial = 0.2` (the source default) and
`tolerance = 1e-6`. -/
theorem C9_witness :
    0 < (1 / 5 : ℝ) ∧
      ∀ k : ℕ,
        0 < (ImpliedVolatility.newtonUpdate iv9 (1 / 1000000))^[k] (1 / 5) :=
  ⟨by norm_num,
    C9_newton_sigma_stays_positive iv9 (1 / 1000000) (1 / 5) (by norm_num)⟩

/-- C10: `vega_newton` is a total function into `ℝ`: for every query,
initial guess, tolerance and iteration budget `n`, its result is exactly
the `n`-fold iterate of the pure per-pass map `newtonUpdate` (the early
tolerance-`return` and zero-vega-`break` paths are fixed points of that
map), so the loop always terminates within the budget and always returns
the current `sigma` iterate as a plain number — a converged result and an
unconverged last iterate are returned identically. -/
theorem C10_newton_returns_iterate (iv : ImpliedVolatility)
    (tol : ℝ) (n : ℕ) (sigma_initial : ℝ) :
    ImpliedVolatility.vega_newton iv sigma_initial n tol =
      (ImpliedVolatility.newtonUpdate iv tol)^[n] sigma_initial := by
  unfold ImpliedVolatility.vega_newton
  induction n generalizing sigma_initial with
  | zero => rfl
  | succ n ih =>
    rw [ImpliedVolatility.vegaNewtonLoop_succ]
    by_cases h1 : |ImpliedVolatility.priceAt iv sigma_initial -
        iv.market_price| < tol
    · rw [if_pos h1]
      have hfix : ImpliedVolatility.newtonUpdate iv tol sigma_initial =
          sigma_initial := by
        unfold ImpliedVolatility.newtonUpdate
        rw [if_pos h1]
      exact (Function.iterate_fixed hfix (n + 1)).symm
    · rw [if_neg h1]
      by_cases h2 : ImpliedVolatility.vegaRaw iv sigma_initial = 0
      · rw [if_pos h2]
        have hfix : ImpliedVolatility.newtonUpdate iv tol sigma_initial =
            sigma_initial := by
          unfold ImpliedVolatility.newtonUpdate
          rw [if_neg h1, if_pos h2]
        exact (Function.iterate_fixed hfix (n + 1)).symm
      · rw [if_neg h2, ih, Function.iterate_succ_apply]
        congr 1
        unfold ImpliedVolatility.newtonUpdate
        rw [if_neg h1, if_neg h2]

end OPV
